import Mathlib

/-!
Shallow embedding of the objective-to-topic matcher of the MCQMCP repository:
`matchTopic`, `shouldUseItemBank` and their helpers (topic-matcher module),
plus `TOPIC_ALIASES`, `normalizeForAlias`, `lookupAlias` (topic-aliases module).

Strings are modelled as `List Char`; the floating-point scores of the source
are modelled as exact rationals `ℚ` (all constants of the source, 0.4/0.5/0.7/
0.8/0.95/0.6, are exactly representable, and every score is a quotient of
small naturals).
-/

abbrev Str := List Char

/-- JS whitespace class `\s` restricted to the ASCII characters that can occur
here: space, tab, newline, carriage return, vertical tab, form feed. -/
def isWs (c : Char) : Bool :=
  c = ' ' || c = '\t' || c = '\n' || c = '\r' || c = '\x0b' || c = '\x0c'

/-- JS word-character class `\w` = ASCII letters, digits and underscore. -/
def isWordChar (c : Char) : Bool :=
  c.isAlphanum || c = '_'

/-- `String.prototype.toLowerCase`, per character (ASCII). -/
def toLower (s : Str) : Str := s.map Char.toLower

/-- `String.prototype.trim`: drop leading and trailing whitespace. -/
def trimWs (s : Str) : Str :=
  ((s.dropWhile isWs).reverse.dropWhile isWs).reverse

/-- Helper for `collapseWsWith`: `inRun` records whether the previous
character was whitespace (so the current run has already emitted `r`). -/
def collapseWsAux (r : Char) : Str → Bool → Str
  | [], _ => []
  | c :: rest, inRun =>
    if isWs c then
      if inRun then collapseWsAux r rest true
      else r :: collapseWsAux r rest true
    else c :: collapseWsAux r rest false

/-- `replace(/\s+/g, r)`: each maximal run of whitespace becomes the single
character `r`. -/
def collapseWsWith (r : Char) (s : Str) : Str :=
  collapseWsAux r s false

/-- `normalized.replace(/\s+/g, '-')` from the exact-match stage. -/
def hyphenate (s : Str) : Str := collapseWsWith '-' s

/-- `normalizeForAlias` from topic-aliases: lowercase, trim, remove every
character that is not a word character, whitespace, slash or hyphen,
collapse whitespace runs to single spaces. -/
def normalizeForAlias (input : Str) : Str :=
  collapseWsWith ' '
    (((trimWs (toLower input))).filter
      (fun c => isWordChar c || isWs c || c = '/' || c = '-'))

/-- The static `TOPIC_ALIASES` table, transcribed entry for entry. -/
def TOPIC_ALIASES : List (String × String) := [
  ("useeffect", "react-hooks"),
  ("use effect", "react-hooks"),
  ("usestate", "react-state"),
  ("use state", "react-state"),
  ("usecontext", "react-hooks"),
  ("usememo", "react-hooks"),
  ("usecallback", "react-hooks"),
  ("usereducer", "react-state"),
  ("useref", "react-hooks"),
  ("react hooks", "react-hooks"),
  ("hooks", "react-hooks"),
  ("react state", "react-state"),
  ("state management", "react-state"),
  ("react rendering", "react-rendering"),
  ("virtual dom", "react-rendering"),
  ("reconciliation", "react-rendering"),
  ("react patterns", "react-patterns"),
  ("higher order components", "react-patterns"),
  ("hoc", "react-patterns"),
  ("render props", "react-patterns"),
  ("compound components", "react-patterns"),
  ("closures", "js-closures"),
  ("closure", "js-closures"),
  ("lexical scope", "js-closures"),
  ("lexical scoping", "js-closures"),
  ("async/await", "js-async"),
  ("async await", "js-async"),
  ("promises", "js-async"),
  ("promise", "js-async"),
  ("asynchronous", "js-async"),
  ("callbacks", "js-async"),
  ("this keyword", "js-this"),
  ("this binding", "js-this"),
  ("call apply bind", "js-this"),
  ("arrow functions", "js-this"),
  ("prototypes", "js-prototypes"),
  ("prototype chain", "js-prototypes"),
  ("inheritance", "js-prototypes"),
  ("prototypal inheritance", "js-prototypes"),
  ("event loop", "js-async"),
  ("microtasks", "js-timers"),
  ("settimeout", "js-timers"),
  ("setinterval", "js-timers"),
  ("timers", "js-timers"),
  ("design patterns", "js-patterns"),
  ("module pattern", "js-patterns"),
  ("singleton", "js-patterns"),
  ("factory", "js-patterns"),
  ("javascript fundamentals", "js-fundamentals"),
  ("js basics", "js-fundamentals"),
  ("variables", "js-fundamentals"),
  ("hoisting", "js-fundamentals"),
  ("scope", "js-fundamentals"),
  ("dom events", "html-events"),
  ("event handling", "html-events"),
  ("event bubbling", "html-events"),
  ("event delegation", "html-events"),
  ("tailwind", "css-tailwind"),
  ("tailwind css", "css-tailwind"),
  ("css", "css-tailwind"),
  ("git", "git-basics"),
  ("version control", "git-basics"),
  ("git commands", "git-basics"),
  ("branching", "git-basics"),
  ("merge", "git-basics"),
  ("rebase", "git-basics"),
  ("algebra", "math-algebra-1"),
  ("algebra 1", "math-algebra-1"),
  ("algebra 2", "math-algebra-2"),
  ("linear equations", "math-algebra-1"),
  ("quadratic equations", "math-algebra-2"),
  ("geometry", "math-geometry"),
  ("triangles", "math-geometry"),
  ("circles", "math-geometry"),
  ("area", "math-geometry"),
  ("perimeter", "math-geometry"),
  ("calculus", "math-calculus"),
  ("derivatives", "math-calculus"),
  ("integrals", "math-calculus"),
  ("limits", "math-calculus"),
  ("statistics", "math-statistics"),
  ("probability", "math-probability"),
  ("permutations", "math-probability"),
  ("combinations", "math-probability"),
  ("arithmetic", "math-arithmetic"),
  ("fractions", "math-arithmetic"),
  ("decimals", "math-arithmetic"),
  ("percentages", "math-percentages"),
  ("percent", "math-percentages"),
  ("profit loss", "math-percentages"),
  ("interest", "math-percentages"),
  ("pre-algebra", "math-pre-algebra"),
  ("prealgebra", "math-pre-algebra"),
  ("ratios", "math-pre-algebra"),
  ("word problems", "math-word-problems"),
  ("biology", "science-biology"),
  ("cells", "science-biology"),
  ("genetics", "science-biology"),
  ("evolution", "science-biology"),
  ("ecology", "science-biology"),
  ("chemistry", "science-chemistry"),
  ("atoms", "science-chemistry"),
  ("molecules", "science-chemistry"),
  ("chemical reactions", "science-chemistry"),
  ("periodic table", "science-chemistry"),
  ("physics", "science-physics"),
  ("forces", "science-physics"),
  ("motion", "science-physics"),
  ("energy", "science-physics"),
  ("electricity", "science-physics"),
  ("magnetism", "science-physics"),
  ("earth science", "science-earth"),
  ("geology", "science-earth"),
  ("weather", "science-earth"),
  ("climate", "science-earth"),
  ("environmental science", "science-environmental"),
  ("us history", "history-us"),
  ("american history", "history-us"),
  ("world history", "history-world"),
  ("geography", "geography"),
  ("economics", "economics"),
  ("microeconomics", "economics"),
  ("macroeconomics", "economics"),
  ("civics", "civics"),
  ("government", "civics"),
  ("politics", "civics"),
  ("reading comprehension", "language-arts-reading"),
  ("reading", "language-arts-reading"),
  ("prompting", "vibe-prompting"),
  ("prompt engineering", "vibe-prompting"),
  ("vibe coding", "vibe-prompting"),
  ("ai prompts", "vibe-prompting"),
  ("code review", "vibe-review"),
  ("ai workflow", "vibe-workflow")]

/-- `lookupAlias` as typed (`Record<string, string>`): normalize, then exact
own-key lookup in `TOPIC_ALIASES`.  This is the lookup the rest of the
pipeline assumes; the JavaScript bracket access of the source additionally
resolves names inherited from `Object.prototype`, which `lookupAliasJs`
below models faithfully (all table values are nonempty strings, so the
source's trailing `|| null` only maps an absent property to null). -/
def lookupAlias (objective : Str) : Option Str :=
  (TOPIC_ALIASES.find? (fun p => p.1.data == normalizeForAlias objective)).map
    (fun p => p.2.data)

/-- The result of the JavaScript expression `TOPIC_ALIASES[normalized] || null`:
a string from an own table entry, a truthy non-string value inherited from
`Object.prototype` (the `constructor` function or the `__proto__` object),
or null when the property is absent. -/
inductive JsValue where
  | str (s : Str)
  | obj
  | null
deriving DecidableEq, Repr

/-- The property names inherited from `Object.prototype` that a
`normalizeForAlias` output can actually equal: the output consists of
lowercase letters, digits, underscores, whitespace, hyphens and slashes,
and of the prototype's members only `constructor` and `__proto__` are
spelled entirely with such characters (the others, such as `toString` or
`valueOf`, contain an uppercase letter and bracket access is
case-sensitive).  Accessing either on the object literal yields a truthy
non-string value. -/
def protoKeys : List String := ["constructor", "__proto__"]

/-- Faithful model of the source's `TOPIC_ALIASES[normalized] || null`:
bracket access finds own entries first, then the properties inherited from
`Object.prototype`. -/
def lookupAliasJs (objective : Str) : JsValue :=
  match TOPIC_ALIASES.find? (fun p => p.1.data == normalizeForAlias objective) with
  | some p => .str p.2.data
  | Option.none =>
    if protoKeys.any (fun q => q.data == normalizeForAlias objective) then .obj
    else .null

/-! ### Levenshtein distance (the DP of `levenshteinDistance`) -/

/-- One row of the DP matrix, left to right: for each remaining character of
`a`, given the two entries of the previous row above-left (`pd`) and above
(head of `prest`), and the entry just computed to the left (`left`), produce
the rest of the current row. -/
def levRowAux (bc : Char) : List Char → List Nat → Nat → List Nat
  | [], _, _ => []
  | _ :: _, [], _ => []
  | c :: cs, pd :: prest, left =>
    let cur := if bc = c then pd else 1 + min pd (min left (prest.headD 0))
    cur :: levRowAux bc cs prest cur

/-- Iterate the DP rows over the characters of `b`; `prev` is the previous
row, `i` the index of the row about to be produced. -/
def levLoop (aChars : List Char) : List Char → List Nat → Nat → List Nat
  | [], prev, _ => prev
  | bc :: bs, prev, i => levLoop aChars bs (i :: levRowAux bc aChars prev i) (i + 1)

/-- `levenshteinDistance(a, b)`: the classic DP with `matrix[i][0] = i`,
`matrix[0][j] = j`, and the substitution/insertion/deletion recurrence;
the answer is the last entry of the last row. -/
def levenshteinDistance (a b : Str) : Nat :=
  (levLoop a b (List.range (a.length + 1)) 1).getLastD 0

/-- `calculateSimilarity`: `1 - distance/maxLength` over the lowercased
strings, and 1 when both strings are empty. -/
def calculateSimilarity (a b : Str) : ℚ :=
  let distance := levenshteinDistance (toLower a) (toLower b)
  let maxLength := max a.length b.length
  if maxLength = 0 then 1 else 1 - (distance : ℚ) / (maxLength : ℚ)

/-! ### Keyword extraction and scoring -/

/-- The stopword set of `extractKeywords`. -/
def stopWords : List String := [
  "the", "a", "an", "and", "or", "but", "in", "on", "at", "to", "for",
  "of", "with", "by", "from", "about", "into", "through", "during",
  "before", "after", "above", "below", "between", "under", "again",
  "further", "then", "once", "here", "there", "when", "where", "why",
  "how", "all", "each", "few", "more", "most", "other", "some", "such",
  "no", "nor", "not", "only", "own", "same", "so", "than", "too", "very",
  "can", "will", "just", "should", "now", "what", "is", "are", "was",
  "were", "be", "been", "being", "have", "has", "had", "having", "do",
  "does", "did", "doing", "would", "could", "might", "must", "shall",
  "learn", "understand", "know", "study", "practice", "quiz", "test", "me"]

/-- `extractKeywords`: lowercase, replace non-word non-space characters by a
space, split on whitespace, keep tokens of length > 2 not in the stopword
list.  The source splits on whitespace *runs*; `splitOnP` splits at every
whitespace character, producing extra empty tokens, which the length filter
removes, so the results coincide. -/
def extractKeywords (objective : Str) : List Str :=
  let cleaned := (toLower objective).map (fun c => if isWordChar c || isWs c then c else ' ')
  (cleaned.splitOnP isWs).filter
    (fun w => decide (2 < w.length) && !(stopWords.any (fun s => s.data == w)))

/-- Substring containment, `haystack.includes(needle)`. -/
def containsStr (s sub : Str) : Bool :=
  s.tails.any (fun t => sub.isPrefixOf t)

/-- `topicContainsKeywords`: split the lowercased topic on hyphens; a keyword
counts as matched when some part contains it or it contains the part; the
score is matched/total, or 0 when there are no keywords. -/
def topicContainsKeywords (topic : Str) (keywords : List Str) : ℚ :=
  let topicParts := (toLower topic).splitOnP (fun c => c == '-')
  let matched := (keywords.filter
    (fun kw => topicParts.any (fun part => containsStr part kw || containsStr kw part))).length
  if 0 < keywords.length then (matched : ℚ) / (keywords.length : ℚ) else 0

/-! ### Fuzzy scoring -/

/-- The topic prefixes of the regex `^(js|react|math|science|html|css|git|vibe|reading)-`. -/
def topicPrefixes : List String :=
  ["js", "react", "math", "science", "html", "css", "git", "vibe", "reading"]

/-- The source's `topic.replace` with the case-sensitive pattern
`^(js|react|math|science|html|css|git|vibe|reading)` followed by a hyphen
(no two alternatives are prefixes of one another, so at most one applies). -/
def stripTopicSubject (t : Str) : Str :=
  match topicPrefixes.find? (fun p => (p.data ++ ['-']).isPrefixOf t) with
  | some p => t.drop (p.length + 1)
  | none => t

/-- The objective prefixes of the regex `^(javascript|react|math|science)\s*`. -/
def objectivePrefixes : List String := ["javascript", "react", "math", "science"]

/-- The source's `normalized.replace` with the case-insensitive pattern
`^(javascript|react|math|science)` followed by `\s` zero or more times:
strip a leading subject word and any following whitespace (possibly none). -/
def stripObjectiveSubject (s : Str) : Str :=
  match objectivePrefixes.find? (fun p => p.data.isPrefixOf (toLower s)) with
  | some p => (s.drop p.length).dropWhile isWs
  | none => s

/-- The per-topic best of the three fuzzy comparisons of step 3 of `matchTopic`. -/
def fuzzyScore (normalized : Str) (topic : Str) : ℚ :=
  let fullScore := calculateSimilarity normalized topic
  let topicStripped := stripTopicSubject topic
  let prefixlessScore := calculateSimilarity normalized topicStripped
  let objectiveClean := stripObjectiveSubject normalized
  let cleanScore := calculateSimilarity objectiveClean topicStripped
  max fullScore (max prefixlessScore cleanScore)

/-- The unsorted `fuzzyMatches` array: one `{topic, score}` pair per topic. -/
def fuzzyMatches (normalized : Str) (ts : List Str) : List (Str × ℚ) :=
  ts.map (fun t => (t, fuzzyScore normalized t))

/-- The ordering of the comparator `(a, b) => b.score - a.score`:
descending by score. -/
def scoreDescR (x y : Str × ℚ) : Prop := y.2 ≤ x.2

instance : DecidableRel scoreDescR :=
  fun x y => inferInstanceAs (Decidable (y.2 ≤ x.2))

instance : IsTotal (Str × ℚ) scoreDescR := ⟨fun a b => le_total b.2 a.2⟩

instance : IsTrans (Str × ℚ) scoreDescR := ⟨fun _ _ _ h1 h2 => le_trans h2 h1⟩

/-- `fuzzyMatches` after `sort((a, b) => b.score - a.score)`.
JS `Array.prototype.sort` is a stable sort; `insertionSort` with the
non-strict descending order is also stable, so the two agree. -/
def fuzzySorted (normalized : Str) (ts : List Str) : List (Str × ℚ) :=
  (fuzzyMatches normalized ts).insertionSort scoreDescR

/-- The sorted `keywordMatches` array of step 4: topics with keyword score
`> 0`, in a stable descending sort by score. -/
def keywordMatches (keywords : List Str) (ts : List Str) : List (Str × ℚ) :=
  ((ts.map (fun t => (t, topicContainsKeywords t keywords))).filter
    (fun p => decide (0 < p.2))).insertionSort scoreDescR

/-! ### The match result and the pipeline -/

inductive MatchType where
  | exact
  | alias
  | fuzzy
  | keyword
  | none
deriving DecidableEq, Repr

/-- The `MatchResult` interface.  `alternatives` is an optional field in the
source, present (possibly as an empty array) exactly on the fuzzy/keyword
return paths. -/
structure MatchResult where
  topic : Option Str
  confidence : ℚ
  matchType : MatchType
  alternatives : Option (List (Str × ℚ))
deriving DecidableEq, Repr

def noneResult : MatchResult := ⟨none, 0, .none, none⟩

/-- Step 4 of `matchTopic` as an early return: keyword extraction and
matching; `none` when it falls through. -/
def keywordStage (objective : Str) (ts : List Str) : Option MatchResult :=
  if (extractKeywords objective).isEmpty then none
  else
    match keywordMatches (extractKeywords objective) ts with
    | [] => none
    | top :: rest =>
      if (0.5 : ℚ) ≤ top.2 then
        some ⟨some top.1, top.2 * 0.8, .keyword,
          some ((rest.take 3).map (fun m => (m.1, m.2 * 0.8)))⟩
      else none

/-- The low-confidence fuzzy fallback (the `>= 0.4` re-check of the sorted
fuzzy matches); `none` when it falls through. -/
def fuzzyFallback (fm : List (Str × ℚ)) : Option MatchResult :=
  match fm with
  | [] => none
  | top :: rest =>
    if (0.4 : ℚ) ≤ top.2 then
      some ⟨some top.1, top.2 * 0.7, .fuzzy,
        some ((rest.take 3).map (fun m => (m.1, m.2 * 0.7)))⟩
    else none

/-- The shared tail of `matchTopic` once the high-confidence fuzzy branch
has fallen through: keyword stage, then the fuzzy fallback over the same
sorted fuzzy matches `fm`, then no-match. -/
def afterFuzzyStages (objective : Str) (fm : List (Str × ℚ)) (ts : List Str) : MatchResult :=
  match keywordStage objective ts with
  | some r => r
  | Option.none =>
    match fuzzyFallback fm with
    | some r => r
    | Option.none => noneResult

/-- Steps 3-5 of `matchTopic` (fuzzy, keyword, fallback, no-match), entered
once the guard, exact and alias stages have all fallen through. -/
def laterStages (objective normalized : Str) (ts : List Str) : MatchResult :=
  match fuzzySorted normalized ts with
  | [] => afterFuzzyStages objective [] ts
  | top :: rest =>
    if (0.7 : ℚ) ≤ top.2 then
      ⟨some top.1, top.2, .fuzzy,
        some ((rest.take 3).filter (fun m => decide ((0.5 : ℚ) ≤ m.2)))⟩
    else afterFuzzyStages objective (top :: rest) ts

/-- `matchTopic(objective, availableTopics)`. -/
def matchTopic (objective : Str) (availableTopics : List Str) : MatchResult :=
  if trimWs objective = [] then noneResult
  else
    match availableTopics.find? (fun t => toLower t == normalizeForAlias objective) with
    | some exactMatch => ⟨some exactMatch, 1, .exact, none⟩
    | Option.none =>
      match availableTopics.find?
          (fun t => toLower t == hyphenate (normalizeForAlias objective)) with
      | some hyphenMatch => ⟨some hyphenMatch, 1, .exact, none⟩
      | Option.none =>
        match lookupAlias objective with
        | some aliasMatch =>
          if availableTopics.any (fun t => toLower t == toLower aliasMatch) then
            ⟨some ((availableTopics.find?
                (fun t => toLower t == toLower aliasMatch)).getD aliasMatch),
              0.95, .alias, none⟩
          else laterStages objective (normalizeForAlias objective) availableTopics
        | Option.none => laterStages objective (normalizeForAlias objective) availableTopics

/-- `matchTopic` with the alias stage modelled faithfully to JavaScript
semantics: when the bracket access resolves through the prototype chain to
a truthy non-string value, the source calls `aliasMatch.toLowerCase()` on
it and throws a TypeError, modelled as `Except.error ()`.  On every other
path this is the same computation as `matchTopic`. -/
def matchTopicJs (objective : Str) (availableTopics : List Str) :
    Except Unit MatchResult :=
  if trimWs objective = [] then .ok noneResult
  else
    match availableTopics.find? (fun t => toLower t == normalizeForAlias objective) with
    | some exactMatch => .ok ⟨some exactMatch, 1, .exact, none⟩
    | Option.none =>
      match availableTopics.find?
          (fun t => toLower t == hyphenate (normalizeForAlias objective)) with
      | some hyphenMatch => .ok ⟨some hyphenMatch, 1, .exact, none⟩
      | Option.none =>
        match lookupAliasJs objective with
        | .str aliasMatch =>
          if availableTopics.any (fun t => toLower t == toLower aliasMatch) then
            .ok ⟨some ((availableTopics.find?
                (fun t => toLower t == toLower aliasMatch)).getD aliasMatch),
              0.95, .alias, none⟩
          else .ok (laterStages objective (normalizeForAlias objective) availableTopics)
        | .obj => .error ()
        | .null => .ok (laterStages objective (normalizeForAlias objective) availableTopics)

/-- `MATCH_THRESHOLD`. -/
def MATCH_THRESHOLD : ℚ := 0.6

/-- `shouldUseItemBank(match)`. -/
def shouldUseItemBank (m : MatchResult) : Bool :=
  m.topic.isSome && decide (MATCH_THRESHOLD ≤ m.confidence)

/-! ### Verification -/

set_option maxRecDepth 100000

/- helper: whitespace chars are fixed by toLower -/
lemma isWs_toLower {c : Char} (h : isWs c = true) : Char.toLower c = c := by
  simp only [isWs, Bool.or_eq_true, decide_eq_true_eq] at h
  rcases h with ((((rfl | rfl) | rfl) | rfl) | rfl) | rfl <;> decide

lemma trimWs_eq_nil {s : Str} (h : ∀ c ∈ s, isWs c = true) : trimWs s = [] := by
  have h1 : s.dropWhile isWs = [] := List.dropWhile_eq_nil_iff.mpr h
  simp [trimWs, h1]

lemma normalizeForAlias_of_trim_nil {s : Str} (h : trimWs s = []) :
    normalizeForAlias s = [] := by
  -- from trimWs s = [] deduce every char of s is whitespace
  have hall : ∀ c ∈ s, isWs c = true := by
    intro c hc
    by_contra hw
    -- if some char is not ws, dropWhile isWs s is nonempty and starts with non-ws
    have h1 : s.dropWhile isWs ≠ [] := by
      intro hnil
      exact hw (List.dropWhile_eq_nil_iff.mp hnil c hc)
    have h2 : (s.dropWhile isWs).reverse ≠ [] := by
      simpa using h1
    -- then reverse (dropWhile ...) nonempty, dropWhile of it must be [] per h
    have h3 : ((s.dropWhile isWs).reverse.dropWhile isWs) = [] := by
      have := congrArg List.reverse h
      simpa [trimWs] using this
    -- so all chars of reverse (dropWhile isWs s) are ws, incl. its head = first non-ws char
    have h4 : ∀ x ∈ (s.dropWhile isWs).reverse, isWs x = true :=
      List.dropWhile_eq_nil_iff.mp h3
    -- but the head of dropWhile isWs s is not ws
    obtain ⟨d, ds, hds⟩ := List.exists_cons_of_ne_nil h1
    have hd : isWs d = false := by
      have := List.head?_dropWhile_not isWs s
      rw [hds] at this
      simpa using this
    have : isWs d = true := h4 d (by simp [hds])
    simp [hd] at this
  have htl : ∀ c ∈ toLower s, isWs c = true := by
    intro c hc
    obtain ⟨c0, hc0, rfl⟩ := List.mem_map.mp hc
    have := hall c0 hc0
    rw [isWs_toLower this]
    exact this
  have h5 : trimWs (toLower s) = [] := trimWs_eq_nil htl
  simp [normalizeForAlias, h5, collapseWsWith, collapseWsAux]

lemma lookupAlias_trim_ne {o : Str} {am : Str} (h : lookupAlias o = some am) :
    trimWs o ≠ [] := by
  intro hnil
  rw [lookupAlias, normalizeForAlias_of_trim_nil hnil] at h
  have hnone : TOPIC_ALIASES.find? (fun p => p.1.data == ([] : Str)) = Option.none := by decide
  rw [hnone] at h
  simp at h

/- navigation: with guard/exact/alias failing, matchTopic is laterStages -/
lemma matchTopic_eq_laterStages (o : Str) (ts : List Str)
    (hne : trimWs o ≠ [])
    (hex1 : ts.find? (fun t => toLower t == normalizeForAlias o) = Option.none)
    (hex2 : ts.find? (fun t => toLower t == hyphenate (normalizeForAlias o)) = Option.none)
    (halias : ∀ am ∈ (lookupAlias o).toList,
      ts.any (fun t => toLower t == toLower am) = false) :
    matchTopic o ts = laterStages o (normalizeForAlias o) ts := by
  unfold matchTopic
  rw [if_neg hne, hex1, hex2]
  cases hal : lookupAlias o with
  | none => rfl
  | some am =>
    have hfalse := halias am (by simp [hal])
    dsimp only
    rw [hfalse]
    simp

lemma keywordStage_eq_none (o : Str) (ts : List Str)
    (hkw : ∀ p ∈ (keywordMatches (extractKeywords o) ts).take 1, p.2 < (0.5 : ℚ)) :
    keywordStage o ts = Option.none := by
  unfold keywordStage
  split
  · rfl
  · cases hkm : keywordMatches (extractKeywords o) ts with
    | nil => rfl
    | cons top rest =>
      have htop : top.2 < (0.5 : ℚ) := hkw top (by simp [hkm])
      dsimp only
      rw [if_neg (not_le.mpr htop)]

lemma keywordStage_some_shape (o : Str) (ts : List Str) (r : MatchResult)
    (h : keywordStage o ts = some r) :
    ∃ top rest, keywordMatches (extractKeywords o) ts = top :: rest ∧
      (0.5 : ℚ) ≤ top.2 ∧
      r = ⟨some top.1, top.2 * 0.8, .keyword,
        some ((rest.take 3).map (fun m => (m.1, m.2 * 0.8)))⟩ := by
  unfold keywordStage at h
  split at h
  · exact absurd h (by simp)
  · split at h
    · exact absurd h (by simp)
    · rename_i top rest hkm
      split at h
      · rename_i hge
        exact ⟨top, rest, hkm, hge, by simpa using h.symm⟩
      · exact absurd h (by simp)

lemma fuzzyFallback_some_shape (fm : List (Str × ℚ)) (r : MatchResult)
    (h : fuzzyFallback fm = some r) :
    ∃ top rest, fm = top :: rest ∧ (0.4 : ℚ) ≤ top.2 ∧
      r = ⟨some top.1, top.2 * 0.7, .fuzzy,
        some ((rest.take 3).map (fun m => (m.1, m.2 * 0.7)))⟩ := by
  unfold fuzzyFallback at h
  split at h
  · exact absurd h (by simp)
  · rename_i top rest
    split at h
    · rename_i hge
      exact ⟨top, rest, rfl, hge, by simpa using h.symm⟩
    · exact absurd h (by simp)

lemma afterFuzzyStages_shape (o : Str) (fm : List (Str × ℚ)) (ts : List Str) :
    afterFuzzyStages o fm ts = noneResult ∨
      ((afterFuzzyStages o fm ts).topic ≠ Option.none ∧
       (afterFuzzyStages o fm ts).matchType ≠ MatchType.none ∧
       0 < (afterFuzzyStages o fm ts).confidence) := by
  unfold afterFuzzyStages
  cases hks : keywordStage o ts with
  | some r =>
    obtain ⟨top, rest, hkm, hge, rfl⟩ := keywordStage_some_shape o ts r hks
    right
    refine ⟨by simp, by simp, ?_⟩
    have h1 : (0 : ℚ) < top.2 := lt_of_lt_of_le (by norm_num) hge
    have h2 : (0 : ℚ) < 0.8 := by norm_num
    simpa using mul_pos h1 h2
  | none =>
    cases hfb : fuzzyFallback fm with
    | some r =>
      obtain ⟨top, rest, hfm2, hge, rfl⟩ := fuzzyFallback_some_shape fm r hfb
      right
      refine ⟨by simp, by simp, ?_⟩
      have h1 : (0 : ℚ) < top.2 := lt_of_lt_of_le (by norm_num) hge
      have h2 : (0 : ℚ) < 0.7 := by norm_num
      simpa using mul_pos h1 h2
    | none => left; rfl

lemma laterStages_shape (o n : Str) (ts : List Str) :
    laterStages o n ts = noneResult ∨
      ((laterStages o n ts).topic ≠ Option.none ∧
       (laterStages o n ts).matchType ≠ MatchType.none ∧
       0 < (laterStages o n ts).confidence) := by
  unfold laterStages
  cases hfm : fuzzySorted n ts with
  | nil => exact afterFuzzyStages_shape o [] ts
  | cons top rest =>
    dsimp only
    split
    · rename_i hge
      right
      exact ⟨by simp, by simp, lt_of_lt_of_le (by norm_num) hge⟩
    · exact afterFuzzyStages_shape o (top :: rest) ts

lemma matchTopic_shape (o : Str) (ts : List Str) :
    matchTopic o ts = noneResult ∨
      ((matchTopic o ts).topic ≠ Option.none ∧
       (matchTopic o ts).matchType ≠ MatchType.none ∧
       0 < (matchTopic o ts).confidence) := by
  unfold matchTopic
  split
  · left; rfl
  · split
    · right; exact ⟨by simp, by simp, by norm_num⟩
    · split
      · right; exact ⟨by simp, by simp, by norm_num⟩
      · split
        · split
          · right
            refine ⟨by simp, by simp, ?_⟩
            show (0 : ℚ) < 0.95
            norm_num
          · exact laterStages_shape o _ ts
        · exact laterStages_shape o _ ts

/-- Claim C4: for every objective and topic list, the result of `matchTopic`
satisfies `confidence = 0` iff `matchType = none`, and `matchType = none` iff
the topic is absent. -/
theorem C4_invariants (o : Str) (ts : List Str) :
    ((matchTopic o ts).confidence = 0 ↔ (matchTopic o ts).matchType = MatchType.none) ∧
    ((matchTopic o ts).matchType = MatchType.none ↔ (matchTopic o ts).topic = Option.none) := by
  rcases matchTopic_shape o ts with h | ⟨h1, h2, h3⟩
  · rw [h]
    simp [noneResult]
  · exact ⟨⟨fun hc => absurd hc.symm (ne_of_lt h3), fun ht => absurd ht h2⟩,
      ⟨fun ht => absurd ht h2, fun ht => absurd ht h1⟩⟩

/-- Claim C1: `MATCH_THRESHOLD` is 0.6, `shouldUseItemBank` is true iff the
match's topic is present and its confidence is at least 0.6, and in
particular it is false on every `matchType = none` result of `matchTopic`. -/
theorem C1_threshold_policy :
    MATCH_THRESHOLD = 0.6 ∧
    (∀ m : MatchResult, shouldUseItemBank m = true ↔
      (m.topic ≠ Option.none ∧ (0.6 : ℚ) ≤ m.confidence)) ∧
    (∀ o ts, (matchTopic o ts).matchType = MatchType.none →
      shouldUseItemBank (matchTopic o ts) = false) := by
  refine ⟨rfl, ?_, ?_⟩
  · intro m
    simp [shouldUseItemBank, MATCH_THRESHOLD, Option.isSome_iff_ne_none]
  · intro o ts h
    rcases matchTopic_shape o ts with he | ⟨h1, h2, h3⟩
    · rw [he]
      rfl
    · exact absurd h h2

lemma lookupAlias_of_js_str {o s : Str} (h : lookupAliasJs o = JsValue.str s) :
    lookupAlias o = some s := by
  unfold lookupAliasJs at h
  unfold lookupAlias
  cases hf : TOPIC_ALIASES.find? (fun p => p.1.data == normalizeForAlias o) with
  | some p =>
    rw [hf] at h
    have he : p.2.data = s := by simpa using h
    simp [he]
  | none =>
    rw [hf] at h
    dsimp only at h
    split at h <;> simp at h

lemma lookupAlias_of_js_null {o : Str} (h : lookupAliasJs o = JsValue.null) :
    lookupAlias o = Option.none := by
  unfold lookupAliasJs at h
  unfold lookupAlias
  cases hf : TOPIC_ALIASES.find? (fun p => p.1.data == normalizeForAlias o) with
  | some p =>
    rw [hf] at h
    simp at h
  | none =>
    rfl

/-- Away from the two prototype-chain names, the JavaScript-faithful
pipeline is total and computes exactly `matchTopic`. -/
lemma matchTopicJs_agree (o : Str) (ts : List Str) (h : lookupAliasJs o ≠ JsValue.obj) :
    matchTopicJs o ts = Except.ok (matchTopic o ts) := by
  unfold matchTopicJs matchTopic
  by_cases hg : trimWs o = []
  · rw [if_pos hg, if_pos hg]
  · rw [if_neg hg, if_neg hg]
    cases h1 : ts.find? (fun t => toLower t == normalizeForAlias o) with
    | some e => rfl
    | none =>
      cases h2 : ts.find? (fun t => toLower t == hyphenate (normalizeForAlias o)) with
      | some e => rfl
      | none =>
        cases hj : lookupAliasJs o with
        | str s =>
          rw [lookupAlias_of_js_str hj]
          dsimp only
          by_cases hc : (ts.any fun t => toLower t == toLower s) = true
          · rw [if_pos hc, if_pos hc]
          · rw [if_neg hc, if_neg hc]
        | obj => exact absurd hj h
        | null =>
          rw [lookupAlias_of_js_null hj]

/-- Claim C9: the claim states the intent (the spec makes `matchTopic` a
total function that never raises) but the code is not total: the bracket
access `TOPIC_ALIASES[normalized]` resolves the names `constructor` and
`__proto__` through `Object.prototype` to truthy non-string values, and the
alias stage then calls `.toLowerCase()` on them, throwing a TypeError.
`matchTopicJs`, which models the bracket access faithfully, evaluates to
the error on objective "constructor" with the empty topic list (and on
"__proto__"); on every objective that does not hit the prototype chain the
pipeline agrees with the total model `matchTopic`, and the two guarded
divisions behave as the claim states (similarity of two empty strings is 1,
keyword scoring with no keywords is 0). -/
theorem C9_code_bug :
    matchTopicJs "constructor".data [] = Except.error () ∧
    lookupAliasJs "constructor".data = JsValue.obj ∧
    matchTopicJs "__proto__".data ["js-closures".data] = Except.error () ∧
    (∀ o ts, lookupAliasJs o ≠ JsValue.obj →
      matchTopicJs o ts = Except.ok (matchTopic o ts)) ∧
    calculateSimilarity [] [] = 1 ∧
    (∀ t : Str, topicContainsKeywords t [] = 0) := by
  exact ⟨rfl, by decide, rfl, matchTopicJs_agree, rfl, fun t => rfl⟩

/-- Claim C2 counterexample: the whitespace-only objective `" "` is a
non-empty string whose normalization (the empty string) equals the available
topic `""` lowercased, yet `matchTopic` returns the no-match result (the
guard fires on the trimmed objective), not an exact match. -/
theorem C2_counterexample :
    " ".data ≠ ([] : Str) ∧
    toLower "".data = normalizeForAlias " ".data ∧
    "".data ∈ ["".data] ∧
    (matchTopic " ".data ["".data]).matchType ≠ MatchType.exact := by
  exact ⟨by decide, by decide, by decide, by decide⟩

/-- Claim C2 (amended): for every objective with non-whitespace content
(trim nonempty) whose normalization equals some available topic lowercased,
either directly or after replacing whitespace runs with hyphens,
`matchTopic` returns such a topic with `matchType = exact` and
confidence 1. -/
theorem C2_exact_amended (objective : Str) (ts : List Str)
    (hne : trimWs objective ≠ [])
    (hmem : ∃ t ∈ ts, toLower t = normalizeForAlias objective ∨
      toLower t = hyphenate (normalizeForAlias objective)) :
    (matchTopic objective ts).matchType = MatchType.exact ∧
    (matchTopic objective ts).confidence = 1 ∧
    ∃ t ∈ ts, (matchTopic objective ts).topic = some t ∧
      (toLower t = normalizeForAlias objective ∨
       toLower t = hyphenate (normalizeForAlias objective)) := by
  cases h1 : ts.find? (fun t => toLower t == normalizeForAlias objective) with
  | some e =>
    have heq : matchTopic objective ts = ⟨some e, 1, .exact, Option.none⟩ := by
      unfold matchTopic
      rw [if_neg hne, h1]
    have he1 : e ∈ ts := List.mem_of_find?_eq_some h1
    have he2 : toLower e = normalizeForAlias objective := by
      simpa using List.find?_some h1
    rw [heq]
    exact ⟨rfl, rfl, e, he1, rfl, Or.inl he2⟩
  | none =>
    obtain ⟨t, ht, hor⟩ := hmem
    have hforall := List.find?_eq_none.mp h1
    rcases hor with heq1 | heq2
    · have : (toLower t == normalizeForAlias objective) = true := by simpa using heq1
      exact absurd this (hforall t ht)
    · cases h2 : ts.find? (fun t => toLower t == hyphenate (normalizeForAlias objective)) with
      | some e =>
        have heq : matchTopic objective ts = ⟨some e, 1, .exact, Option.none⟩ := by
          unfold matchTopic
          rw [if_neg hne, h1, h2]
        have he1 : e ∈ ts := List.mem_of_find?_eq_some h2
        have he2 : toLower e = hyphenate (normalizeForAlias objective) := by
          simpa using List.find?_some h2
        rw [heq]
        exact ⟨rfl, rfl, e, he1, rfl, Or.inr he2⟩
      | none =>
        have hforall2 := List.find?_eq_none.mp h2
        have : (toLower t == hyphenate (normalizeForAlias objective)) = true := by simpa using heq2
        exact absurd this (hforall2 t ht)

/-- Witness for C2 at objective "JS Closures" and topics ["js-closures"]. -/
theorem C2_witness :
    (matchTopic "JS Closures".data ["js-closures".data]).matchType = MatchType.exact ∧
    (matchTopic "JS Closures".data ["js-closures".data]).confidence = 1 := by
  have h := C2_exact_amended "JS Closures".data ["js-closures".data] (by decide)
    ⟨"js-closures".data, by decide, Or.inr (by decide)⟩
  exact ⟨h.1, h.2.1⟩

/-- Claim C3 counterexample: "react hooks" normalizes to an alias-table key
mapped to "react-hooks", which is available, yet `matchTopic` returns an
exact match with confidence 1 (the hyphenated exact stage runs before the
alias stage), not an alias match with 0.95. -/
theorem C3_counterexample :
    lookupAlias "react hooks".data = some "react-hooks".data ∧
    "react-hooks".data ∈ ["react-hooks".data] ∧
    (matchTopic "react hooks".data ["react-hooks".data]).matchType ≠ MatchType.alias ∧
    (matchTopic "react hooks".data ["react-hooks".data]).confidence = 1 := by
  have h : matchTopic "react hooks".data ["react-hooks".data] =
      ⟨some "react-hooks".data, 1, MatchType.exact, Option.none⟩ := by
    with_unfolding_all rfl
  refine ⟨by decide, by decide, ?_, ?_⟩
  · rw [h]; decide
  · rw [h]

/-- Claim C3 (amended): for every objective whose normalization is an
alias-table key whose mapped canonical topic is present (case-insensitively)
in the available topics, and which the exact stage does not match (neither
directly nor hyphenated), `matchTopic` returns that topic with
`matchType = alias` and confidence 0.95 — regardless of fuzzy scores, so
alias takes priority over fuzzy. -/
theorem C3_alias_amended (objective : Str) (ts : List Str) (am : Str)
    (halias : lookupAlias objective = some am)
    (hin : ts.any (fun t => toLower t == toLower am) = true)
    (hex1 : ts.find? (fun t => toLower t == normalizeForAlias objective) = Option.none)
    (hex2 : ts.find? (fun t => toLower t == hyphenate (normalizeForAlias objective)) = Option.none) :
    (matchTopic objective ts).matchType = MatchType.alias ∧
    (matchTopic objective ts).confidence = 0.95 ∧
    ∃ t ∈ ts, (matchTopic objective ts).topic = some t ∧ toLower t = toLower am := by
  have hne := lookupAlias_trim_ne halias
  have hsome : (ts.find? (fun t => toLower t == toLower am)).isSome := by
    rw [List.find?_isSome]
    simpa using List.any_eq_true.mp hin
  obtain ⟨e, he⟩ := Option.isSome_iff_exists.mp hsome
  have heq : matchTopic objective ts = ⟨some e, 0.95, MatchType.alias, Option.none⟩ := by
    unfold matchTopic
    rw [if_neg hne, hex1, hex2, halias]
    dsimp only
    rw [if_pos hin, he]
    rfl
  have he1 : e ∈ ts := List.mem_of_find?_eq_some he
  have he2 : toLower e = toLower am := by
    simpa using List.find?_some he
  rw [heq]
  exact ⟨rfl, rfl, e, he1, rfl, he2⟩

/-- Witness for C3 at objective "useEffect" and topics ["react-hooks"]. -/
theorem C3_witness :
    (matchTopic "useEffect".data ["react-hooks".data]).matchType = MatchType.alias ∧
    (matchTopic "useEffect".data ["react-hooks".data]).confidence = 0.95 ∧
    (matchTopic "useEffect".data ["react-hooks".data]).topic = some "react-hooks".data := by
  have h := C3_alias_amended "useEffect".data ["react-hooks".data] "react-hooks".data
    (by decide) (by decide) (by decide) (by decide)
  obtain ⟨h1, h2, t, ht, htop, hlow⟩ := h
  have : t = "react-hooks".data := by
    simpa using ht
  exact ⟨h1, h2, by rw [htop, this]⟩

/-- Claim C5: when the guard, exact and alias stages fail, the best fuzzy
score `s` is below 0.7, the keyword stage does not return, and `s` is at
least 0.4, `matchTopic` returns the best-scoring topic with
`matchType = fuzzy` and confidence `s * 0.7`. -/
theorem C5_fuzzy_fallback (objective : Str) (ts : List Str) (top : Str × ℚ)
    (rest : List (Str × ℚ))
    (hne : trimWs objective ≠ [])
    (hex1 : ts.find? (fun t => toLower t == normalizeForAlias objective) = Option.none)
    (hex2 : ts.find? (fun t => toLower t == hyphenate (normalizeForAlias objective)) = Option.none)
    (halias : ∀ am ∈ (lookupAlias objective).toList,
      ts.any (fun t => toLower t == toLower am) = false)
    (hfm : fuzzySorted (normalizeForAlias objective) ts = top :: rest)
    (hlt : top.2 < 0.7)
    (hkw : ∀ p ∈ (keywordMatches (extractKeywords objective) ts).take 1, p.2 < (0.5 : ℚ))
    (hge : (0.4 : ℚ) ≤ top.2) :
    (matchTopic objective ts).topic = some top.1 ∧
    (matchTopic objective ts).matchType = MatchType.fuzzy ∧
    (matchTopic objective ts).confidence = top.2 * 0.7 := by
  have h1 := matchTopic_eq_laterStages objective ts hne hex1 hex2 halias
  have hks := keywordStage_eq_none objective ts hkw
  have h2 : laterStages objective (normalizeForAlias objective) ts =
      ⟨some top.1, top.2 * 0.7, MatchType.fuzzy,
        some ((rest.take 3).map (fun m => (m.1, m.2 * 0.7)))⟩ := by
    unfold laterStages
    rw [hfm]
    dsimp only
    rw [if_neg (not_le.mpr hlt)]
    unfold afterFuzzyStages
    rw [hks]
    dsimp only
    unfold fuzzyFallback
    dsimp only
    rw [if_pos hge]
  rw [h1, h2]
  exact ⟨rfl, rfl, rfl⟩

/-- Witness for C5 at objective "abcxyz" and topics ["abcdef"], where the
best fuzzy score is 1/2. -/
theorem C5_witness :
    (matchTopic "abcxyz".data ["abcdef".data]).topic = some "abcdef".data ∧
    (matchTopic "abcxyz".data ["abcdef".data]).matchType = MatchType.fuzzy ∧
    (matchTopic "abcxyz".data ["abcdef".data]).confidence = (1/2 : ℚ) * 0.7 := by
  have hkm : keywordMatches (extractKeywords "abcxyz".data) ["abcdef".data] = [] := by
    with_unfolding_all rfl
  have hfm : fuzzySorted (normalizeForAlias "abcxyz".data) ["abcdef".data] =
      [("abcdef".data, (1/2 : ℚ))] := by
    with_unfolding_all rfl
  have h := C5_fuzzy_fallback "abcxyz".data ["abcdef".data] ("abcdef".data, (1/2 : ℚ)) []
    (by decide) (by decide) (by decide)
    (by intro am ham; have : lookupAlias "abcxyz".data = Option.none := by decide
        rw [this] at ham; simp at ham)
    hfm (by norm_num)
    (by intro p hp; rw [hkm] at hp; simp at hp) (by norm_num)
  exact h

/-- Claim C6 counterexample: on objective "probability and dice games" with
topics ["math-probability"], `matchTopic` does not return a keyword match:
only one of the three extracted keywords overlaps, so the keyword score is
1/3, below the 0.5 threshold. -/
theorem C6_counterexample :
    (matchTopic "probability and dice games".data ["math-probability".data]).matchType ≠
      MatchType.keyword := by
  have h : matchTopic "probability and dice games".data ["math-probability".data] =
      ⟨some "math-probability".data, (11/26 : ℚ) * 0.7, MatchType.fuzzy, some []⟩ := by
    with_unfolding_all rfl
  rw [h]
  decide

/-- Claim C6 (amended): on objective "probability and dice games" with
topics ["math-probability"], the extracted keywords are
[probability, dice, games], the keyword overlap is 1/3 (below the 0.5
threshold, so the keyword stage does not fire), and `matchTopic` returns the
low-confidence fuzzy fallback: topic "math-probability",
`matchType = fuzzy`, confidence equal to the best fuzzy score 11/26 times
0.7. -/
theorem C6_amended :
    extractKeywords "probability and dice games".data =
      ["probability".data, "dice".data, "games".data] ∧
    topicContainsKeywords "math-probability".data
      (extractKeywords "probability and dice games".data) = 1/3 ∧
    matchTopic "probability and dice games".data ["math-probability".data] =
      ⟨some "math-probability".data, (11/26 : ℚ) * 0.7, MatchType.fuzzy, some []⟩ := by
  refine ⟨by decide, ?_, ?_⟩ <;> with_unfolding_all rfl

/-- Witness for C1 at a no-match input. -/
theorem C1_witness :
    (matchTopic "xyzzy nonsense quantum".data
      ["js-closures".data, "react-hooks".data]).matchType = MatchType.none ∧
    shouldUseItemBank (matchTopic "xyzzy nonsense quantum".data
      ["js-closures".data, "react-hooks".data]) = false := by
  have h : (matchTopic "xyzzy nonsense quantum".data
      ["js-closures".data, "react-hooks".data]).matchType = MatchType.none := by
    with_unfolding_all rfl
  exact ⟨h, C1_threshold_policy.2.2 _ _ h⟩

/-- Witness for C9: the agreement hypothesis discharged at a concrete
non-crashing input, next to the concrete crash. -/
theorem C9_code_bug_witness :
    matchTopicJs "useEffect".data ["react-hooks".data] =
      Except.ok (matchTopic "useEffect".data ["react-hooks".data]) ∧
    matchTopicJs "constructor".data [] = Except.error () := by
  exact ⟨C9_code_bug.2.2.2.1 _ _ (by decide), C9_code_bug.1⟩

lemma isUpper_toNat {c : Char} (h : c.isUpper = true) : 65 ≤ c.toNat ∧ c.toNat ≤ 90 := by
  simp only [Char.isUpper, Bool.and_eq_true, decide_eq_true_eq] at h
  exact h

lemma isLower_toLower (c : Char) (h : (Char.toLower c).isAlpha = true) :
    (Char.toLower c).isLower = true := by
  by_cases hb : c.toNat ≥ 65 ∧ c.toNat ≤ 90
  · have ht : Char.toLower c =
        if c.toNat ≥ 65 ∧ c.toNat ≤ 90 then Char.ofNat (c.toNat + 32) else c := rfl
    rw [ht, if_pos hb]
    obtain ⟨hb1, hb2⟩ := hb
    generalize c.toNat = n at hb1 hb2
    interval_cases n <;> decide
  · have ht : Char.toLower c =
        if c.toNat ≥ 65 ∧ c.toNat ≤ 90 then Char.ofNat (c.toNat + 32) else c := rfl
    rw [ht, if_neg hb] at h ⊢
    rcases (show c.isUpper = true ∨ c.isLower = true by simpa [Char.isAlpha] using h) with hu | hl
    · exact absurd (isUpper_toNat hu) hb
    · exact hl

lemma mem_collapseWsAux {r c : Char} :
    ∀ {s : Str} {b : Bool}, c ∈ collapseWsAux r s b → c = r ∨ c ∈ s
  | [], _, h => by simp [collapseWsAux] at h
  | d :: rest, b, h => by
    unfold collapseWsAux at h
    split at h
    · split at h
      · rcases mem_collapseWsAux h with h1 | h2
        · exact .inl h1
        · exact .inr (List.mem_cons_of_mem _ h2)
      · rcases List.mem_cons.mp h with rfl | h3
        · exact .inl rfl
        · rcases mem_collapseWsAux h3 with h1 | h2
          · exact .inl h1
          · exact .inr (List.mem_cons_of_mem _ h2)
    · rcases List.mem_cons.mp h with rfl | h3
      · exact .inr (List.mem_cons_self _ _)
      · rcases mem_collapseWsAux h3 with h1 | h2
        · exact .inl h1
        · exact .inr (List.mem_cons_of_mem _ h2)

lemma trimWs_subset (s : Str) : trimWs s ⊆ s := by
  intro c hc
  rw [trimWs, List.mem_reverse] at hc
  have h1 := (List.dropWhile_sublist isWs).subset hc
  rw [List.mem_reverse] at h1
  exact (List.dropWhile_sublist isWs).subset h1

/-- Claim C8 counterexample: the underscore is neither a letter, digit,
whitespace, hyphen nor forward slash, yet `normalizeForAlias` keeps it. -/
theorem C8_counterexample :
    normalizeForAlias "_".data = "_".data ∧
    ('_' ∈ normalizeForAlias "_".data) ∧
    ¬(('_' : Char).isAlpha = true ∨ ('_' : Char).isDigit = true ∨
      isWs '_' = true ∨ '_' = '-' ∨ '_' = '/') := by
  exact ⟨by decide, by decide, by decide⟩

/-- Claim C8 (amended): every character of the output of
`normalizeForAlias` is a lowercase letter, a digit, an underscore,
whitespace, a hyphen, or a forward slash; every other character is
removed. -/
theorem C8_normalize_chars (s : Str) (c : Char) (hc : c ∈ normalizeForAlias s) :
    c.isLower = true ∨ c.isDigit = true ∨ c = '_' ∨ isWs c = true ∨ c = '-' ∨ c = '/' := by
  rcases mem_collapseWsAux hc with rfl | hmem
  · exact .inr (.inr (.inr (.inl (by decide))))
  · obtain ⟨hin, hpred⟩ := List.mem_filter.mp hmem
    have hs : c ∈ toLower s := trimWs_subset _ hin
    obtain ⟨c0, _, rfl⟩ := List.mem_map.mp hs
    simp only [isWordChar, Bool.or_eq_true, decide_eq_true_eq] at hpred
    rcases hpred with (((halnum | hund) | hws) | hslash) | hhyph
    · rcases (show (Char.toLower c0).isAlpha = true ∨ (Char.toLower c0).isDigit = true by
          simpa [Char.isAlphanum] using halnum) with halpha | hdig
      · exact .inl (isLower_toLower c0 halpha)
      · exact .inr (.inl hdig)
    · exact .inr (.inr (.inl hund))
    · exact .inr (.inr (.inr (.inl hws)))
    · exact .inr (.inr (.inr (.inr (.inr hslash))))
    · exact .inr (.inr (.inr (.inr (.inl hhyph))))

/-- Witness for C8 at a concrete mixed input. -/
theorem C8_witness :
    ('j' ∈ normalizeForAlias " JS/Closures-101! ".data) ∧
    (('j' : Char).isLower = true ∨ ('j' : Char).isDigit = true ∨ 'j' = '_' ∨
      isWs 'j' = true ∨ 'j' = '-' ∨ 'j' = '/') := by
  refine ⟨by decide, C8_normalize_chars " JS/Closures-101! ".data 'j' (by decide)⟩

/- sortedness and permutation facts about the two sorted stages -/
lemma fuzzySorted_pairwise (n : Str) (ts : List Str) :
    (fuzzySorted n ts).Pairwise scoreDescR :=
  List.sorted_insertionSort scoreDescR (fuzzyMatches n ts)

lemma keywordMatches_pairwise (kw : List Str) (ts : List Str) :
    (keywordMatches kw ts).Pairwise scoreDescR :=
  List.sorted_insertionSort scoreDescR _

lemma map_fst_map_pair (ts : List Str) (g : Str → ℚ) :
    (ts.map (fun t => (t, g t))).map Prod.fst = ts := by
  induction ts with
  | nil => rfl
  | cons a l ih => simp only [List.map_cons]; rw [ih]

lemma fuzzySorted_fst_perm (n : Str) (ts : List Str) :
    List.Perm ((fuzzySorted n ts).map Prod.fst) ts := by
  have h := (List.perm_insertionSort scoreDescR (fuzzyMatches n ts)).map Prod.fst
  rwa [fuzzyMatches, map_fst_map_pair] at h

lemma fuzzySorted_fst_nodup (n : Str) {ts : List Str} (h : ts.Nodup) :
    ((fuzzySorted n ts).map Prod.fst).Nodup :=
  (fuzzySorted_fst_perm n ts).nodup_iff.mpr h

lemma keywordMatches_fst_nodup (kw : List Str) {ts : List Str} (h : ts.Nodup) :
    ((keywordMatches kw ts).map Prod.fst).Nodup := by
  have hsub : List.Sublist (((ts.map (fun t => (t, topicContainsKeywords t kw))).filter
      (fun p => decide (0 < p.2))).map Prod.fst) ts := by
    have h1 := (List.filter_sublist (p := fun p : Str × ℚ => decide (0 < p.2))
      (ts.map (fun t => (t, topicContainsKeywords t kw)))).map Prod.fst
    rwa [map_fst_map_pair] at h1
  have hnd : (((ts.map (fun t => (t, topicContainsKeywords t kw))).filter
      (fun p => decide (0 < p.2))).map Prod.fst).Nodup := h.sublist hsub
  have hperm := (List.perm_insertionSort scoreDescR
    ((ts.map (fun t => (t, topicContainsKeywords t kw))).filter
      (fun p => decide (0 < p.2)))).map Prod.fst
  exact hperm.nodup_iff.mpr hnd

lemma keywordMatches_empty (ts : List Str) : keywordMatches [] ts = [] := by
  have h : (ts.map (fun t => (t, topicContainsKeywords t []))).filter
      (fun p => decide (0 < p.2)) = [] := by
    rw [List.filter_eq_nil_iff]
    intro p hp
    obtain ⟨t, _, rfl⟩ := List.mem_map.mp hp
    simp [topicContainsKeywords]
  rw [keywordMatches, h]
  rfl

lemma matchTopic_fuzzy_high_eq (o : Str) (ts : List Str) (top : Str × ℚ)
    (rest : List (Str × ℚ))
    (hne : trimWs o ≠ [])
    (hex1 : ts.find? (fun t => toLower t == normalizeForAlias o) = Option.none)
    (hex2 : ts.find? (fun t => toLower t == hyphenate (normalizeForAlias o)) = Option.none)
    (halias : ∀ am ∈ (lookupAlias o).toList,
      ts.any (fun t => toLower t == toLower am) = false)
    (hfm : fuzzySorted (normalizeForAlias o) ts = top :: rest)
    (hge : (0.7 : ℚ) ≤ top.2) :
    matchTopic o ts = ⟨some top.1, top.2, MatchType.fuzzy,
      some ((rest.take 3).filter (fun m => decide ((0.5 : ℚ) ≤ m.2)))⟩ := by
  rw [matchTopic_eq_laterStages o ts hne hex1 hex2 halias]
  unfold laterStages
  rw [hfm]
  dsimp only
  rw [if_pos hge]

lemma matchTopic_keyword_eq (o : Str) (ts : List Str) (ktop : Str × ℚ)
    (krest : List (Str × ℚ))
    (hne : trimWs o ≠ [])
    (hex1 : ts.find? (fun t => toLower t == normalizeForAlias o) = Option.none)
    (hex2 : ts.find? (fun t => toLower t == hyphenate (normalizeForAlias o)) = Option.none)
    (halias : ∀ am ∈ (lookupAlias o).toList,
      ts.any (fun t => toLower t == toLower am) = false)
    (hfuzzy : ∀ p ∈ (fuzzySorted (normalizeForAlias o) ts).take 1, p.2 < (0.7 : ℚ))
    (hkm : keywordMatches (extractKeywords o) ts = ktop :: krest)
    (hge : (0.5 : ℚ) ≤ ktop.2) :
    matchTopic o ts = ⟨some ktop.1, ktop.2 * 0.8, MatchType.keyword,
      some ((krest.take 3).map (fun m => (m.1, m.2 * 0.8)))⟩ := by
  have hkempty : (extractKeywords o).isEmpty = false := by
    by_contra hcon
    have h1 : extractKeywords o = [] :=
      List.isEmpty_iff.mp (Bool.of_not_eq_false hcon)
    rw [h1, keywordMatches_empty] at hkm
    exact absurd hkm (by simp)
  have hks : keywordStage o ts = some ⟨some ktop.1, ktop.2 * 0.8, MatchType.keyword,
      some ((krest.take 3).map (fun m => (m.1, m.2 * 0.8)))⟩ := by
    unfold keywordStage
    rw [if_neg (by simp [hkempty]), hkm]
    dsimp only
    rw [if_pos hge]
  rw [matchTopic_eq_laterStages o ts hne hex1 hex2 halias]
  unfold laterStages
  cases hfm2 : fuzzySorted (normalizeForAlias o) ts with
  | nil =>
    dsimp only
    unfold afterFuzzyStages
    rw [hks]
  | cons top rest =>
    have hlt := hfuzzy top (by simp [hfm2])
    dsimp only
    rw [if_neg (not_le.mpr hlt)]
    unfold afterFuzzyStages
    rw [hks]

lemma matchTopic_fallback_eq (o : Str) (ts : List Str) (top : Str × ℚ)
    (rest : List (Str × ℚ))
    (hne : trimWs o ≠ [])
    (hex1 : ts.find? (fun t => toLower t == normalizeForAlias o) = Option.none)
    (hex2 : ts.find? (fun t => toLower t == hyphenate (normalizeForAlias o)) = Option.none)
    (halias : ∀ am ∈ (lookupAlias o).toList,
      ts.any (fun t => toLower t == toLower am) = false)
    (hfm : fuzzySorted (normalizeForAlias o) ts = top :: rest)
    (hlt : top.2 < 0.7)
    (hkw : ∀ p ∈ (keywordMatches (extractKeywords o) ts).take 1, p.2 < (0.5 : ℚ))
    (hge : (0.4 : ℚ) ≤ top.2) :
    matchTopic o ts = ⟨some top.1, top.2 * 0.7, MatchType.fuzzy,
      some ((rest.take 3).map (fun m => (m.1, m.2 * 0.7)))⟩ := by
  rw [matchTopic_eq_laterStages o ts hne hex1 hex2 halias]
  have hks := keywordStage_eq_none o ts hkw
  unfold laterStages
  rw [hfm]
  dsimp only
  rw [if_neg (not_le.mpr hlt)]
  unfold afterFuzzyStages
  rw [hks]
  dsimp only
  unfold fuzzyFallback
  dsimp only
  rw [if_pos hge]

/-- Claim C10: in the keyword stage and the low-confidence fuzzy fallback
the up-to-3 alternatives are taken purely by rank (slice then discount, no
minimum-score filter, so a zero-scored entry may appear), while the
high-confidence fuzzy stage keeps only alternatives whose undiscounted
score is at least 0.5. -/
theorem C10_alternative_filters :
    (∀ o ts (top : Str × ℚ) rest,
      trimWs o ≠ [] →
      ts.find? (fun t => toLower t == normalizeForAlias o) = Option.none →
      ts.find? (fun t => toLower t == hyphenate (normalizeForAlias o)) = Option.none →
      (∀ am ∈ (lookupAlias o).toList,
        ts.any (fun t => toLower t == toLower am) = false) →
      fuzzySorted (normalizeForAlias o) ts = top :: rest →
      (0.7 : ℚ) ≤ top.2 →
      (matchTopic o ts).alternatives =
        some ((rest.take 3).filter (fun m => decide ((0.5 : ℚ) ≤ m.2)))) ∧
    (∀ o ts (ktop : Str × ℚ) krest,
      trimWs o ≠ [] →
      ts.find? (fun t => toLower t == normalizeForAlias o) = Option.none →
      ts.find? (fun t => toLower t == hyphenate (normalizeForAlias o)) = Option.none →
      (∀ am ∈ (lookupAlias o).toList,
        ts.any (fun t => toLower t == toLower am) = false) →
      (∀ p ∈ (fuzzySorted (normalizeForAlias o) ts).take 1, p.2 < (0.7 : ℚ)) →
      keywordMatches (extractKeywords o) ts = ktop :: krest →
      (0.5 : ℚ) ≤ ktop.2 →
      (matchTopic o ts).alternatives =
        some ((krest.take 3).map (fun m => (m.1, m.2 * 0.8)))) ∧
    (∀ o ts (top : Str × ℚ) rest,
      trimWs o ≠ [] →
      ts.find? (fun t => toLower t == normalizeForAlias o) = Option.none →
      ts.find? (fun t => toLower t == hyphenate (normalizeForAlias o)) = Option.none →
      (∀ am ∈ (lookupAlias o).toList,
        ts.any (fun t => toLower t == toLower am) = false) →
      fuzzySorted (normalizeForAlias o) ts = top :: rest →
      top.2 < 0.7 →
      (∀ p ∈ (keywordMatches (extractKeywords o) ts).take 1, p.2 < (0.5 : ℚ)) →
      (0.4 : ℚ) ≤ top.2 →
      (matchTopic o ts).alternatives =
        some ((rest.take 3).map (fun m => (m.1, m.2 * 0.7)))) := by
  refine ⟨?_, ?_, ?_⟩
  · intro o ts top rest hne hex1 hex2 halias hfm hge
    rw [matchTopic_fuzzy_high_eq o ts top rest hne hex1 hex2 halias hfm hge]
  · intro o ts ktop krest hne hex1 hex2 halias hfuzzy hkm hge
    rw [matchTopic_keyword_eq o ts ktop krest hne hex1 hex2 halias hfuzzy hkm hge]
  · intro o ts top rest hne hex1 hex2 halias hfm hlt hkw hge
    rw [matchTopic_fallback_eq o ts top rest hne hex1 hex2 halias hfm hlt hkw hge]

/-- Witness for C10: one concrete input per branch; the fuzzy branch
filters a 0-scored alternative out, the keyword and fallback branches keep
alternatives scoring 2/5 and 0 respectively. -/
theorem C10_witness :
    (matchTopic "abcdef".data ["abcdeg".data, "zzzzzz".data]).alternatives = some [] ∧
    (matchTopic "probability dice".data
      ["math-probability".data, "x-dice-y".data]).alternatives =
      some [("math-probability".data, (2/5 : ℚ))] ∧
    (matchTopic "abcxyz".data ["abcdef".data, "qqqqqq".data]).alternatives =
      some [("qqqqqq".data, (0 : ℚ))] := by
  refine ⟨?_, ?_, ?_⟩
  · have h := C10_alternative_filters.1 "abcdef".data ["abcdeg".data, "zzzzzz".data]
      ("abcdeg".data, (5/6 : ℚ)) [("zzzzzz".data, (0 : ℚ))]
      (by decide) (by decide) (by decide)
      (by intro am ham
          have h0 : lookupAlias "abcdef".data = Option.none := by decide
          rw [h0] at ham
          simp at ham)
      (by with_unfolding_all rfl) (by norm_num)
    rw [h]
    with_unfolding_all rfl
  · have h := C10_alternative_filters.2.1 "probability dice".data
      ["math-probability".data, "x-dice-y".data]
      ("x-dice-y".data, (1 : ℚ)) [("math-probability".data, (1/2 : ℚ))]
      (by decide) (by decide) (by decide)
      (by intro am ham
          have h0 : lookupAlias "probability dice".data = Option.none := by decide
          rw [h0] at ham
          simp at ham)
      (by intro p hp
          have hfmEq : fuzzySorted (normalizeForAlias "probability dice".data)
              ["math-probability".data, "x-dice-y".data] =
              [("math-probability".data, (11/16 : ℚ)), ("x-dice-y".data, (1/8 : ℚ))] := by
            with_unfolding_all rfl
          rw [hfmEq] at hp
          simp at hp
          rw [hp]
          norm_num)
      (by with_unfolding_all rfl) (by norm_num)
    rw [h]
    with_unfolding_all rfl
  · have h := C10_alternative_filters.2.2 "abcxyz".data ["abcdef".data, "qqqqqq".data]
      ("abcdef".data, (1/2 : ℚ)) [("qqqqqq".data, (0 : ℚ))]
      (by decide) (by decide) (by decide)
      (by intro am ham
          have h0 : lookupAlias "abcxyz".data = Option.none := by decide
          rw [h0] at ham
          simp at ham)
      (by with_unfolding_all rfl) (by norm_num)
      (by intro p hp
          have hkmEq : keywordMatches (extractKeywords "abcxyz".data)
              ["abcdef".data, "qqqqqq".data] = [] := by
            with_unfolding_all rfl
          rw [hkmEq] at hp
          simp at hp)
      (by norm_num)
    rw [h]
    with_unfolding_all rfl

lemma matchTopic_alt_none_or_later (o : Str) (ts : List Str) :
    (matchTopic o ts).alternatives = Option.none ∨
    matchTopic o ts = laterStages o (normalizeForAlias o) ts := by
  unfold matchTopic
  split
  · left; rfl
  · split
    · left; rfl
    · split
      · left; rfl
      · split
        · split
          · left; rfl
          · right; rfl
        · right; rfl

lemma laterStages_alt_cases (o n : Str) (ts : List Str) (alts : List (Str × ℚ))
    (h : (laterStages o n ts).alternatives = some alts) :
    (∃ top rest, fuzzySorted n ts = top :: rest ∧ (0.7 : ℚ) ≤ top.2 ∧
      laterStages o n ts = ⟨some top.1, top.2, MatchType.fuzzy,
        some ((rest.take 3).filter (fun m => decide ((0.5 : ℚ) ≤ m.2)))⟩) ∨
    (∃ ktop krest, keywordMatches (extractKeywords o) ts = ktop :: krest ∧
      (0.5 : ℚ) ≤ ktop.2 ∧
      laterStages o n ts = ⟨some ktop.1, ktop.2 * 0.8, MatchType.keyword,
        some ((krest.take 3).map (fun m => (m.1, m.2 * 0.8)))⟩) ∨
    (∃ top rest, fuzzySorted n ts = top :: rest ∧ (0.4 : ℚ) ≤ top.2 ∧
      laterStages o n ts = ⟨some top.1, top.2 * 0.7, MatchType.fuzzy,
        some ((rest.take 3).map (fun m => (m.1, m.2 * 0.7)))⟩) := by
  cases hfm : fuzzySorted n ts with
  | nil =>
    have heq0 : laterStages o n ts = afterFuzzyStages o [] ts := by
      unfold laterStages
      rw [hfm]
    cases hks : keywordStage o ts with
    | some r =>
      obtain ⟨ktop, krest, hkm, hge, rfl⟩ := keywordStage_some_shape o ts r hks
      have heq : laterStages o n ts = ⟨some ktop.1, ktop.2 * 0.8, MatchType.keyword,
          some ((krest.take 3).map (fun m => (m.1, m.2 * 0.8)))⟩ := by
        rw [heq0]
        unfold afterFuzzyStages
        rw [hks]
      exact .inr (.inl ⟨ktop, krest, hkm, hge, heq⟩)
    | none =>
      have heq : laterStages o n ts = noneResult := by
        rw [heq0]
        unfold afterFuzzyStages
        rw [hks]
        rfl
      rw [heq] at h
      exact absurd h (by simp [noneResult])
  | cons top rest =>
    by_cases hge : (0.7 : ℚ) ≤ top.2
    · have heq : laterStages o n ts = ⟨some top.1, top.2, MatchType.fuzzy,
          some ((rest.take 3).filter (fun m => decide ((0.5 : ℚ) ≤ m.2)))⟩ := by
        unfold laterStages
        rw [hfm]
        dsimp only
        rw [if_pos hge]
      exact .inl ⟨top, rest, rfl, hge, heq⟩
    · have heqA : laterStages o n ts = afterFuzzyStages o (top :: rest) ts := by
        unfold laterStages
        rw [hfm]
        dsimp only
        rw [if_neg hge]
      cases hks : keywordStage o ts with
      | some r =>
        obtain ⟨ktop, krest, hkm, hkge, rfl⟩ := keywordStage_some_shape o ts r hks
        have heq : laterStages o n ts = ⟨some ktop.1, ktop.2 * 0.8, MatchType.keyword,
            some ((krest.take 3).map (fun m => (m.1, m.2 * 0.8)))⟩ := by
          rw [heqA]
          unfold afterFuzzyStages
          rw [hks]
        exact .inr (.inl ⟨ktop, krest, hkm, hkge, heq⟩)
      | none =>
        cases hfb : fuzzyFallback (top :: rest) with
        | some r =>
          obtain ⟨ftop, frest, hfeq, hfge, rfl⟩ := fuzzyFallback_some_shape _ r hfb
          injection hfeq with e1 e2
          subst e1
          subst e2
          have heq : laterStages o n ts = ⟨some top.1, top.2 * 0.7, MatchType.fuzzy,
              some ((rest.take 3).map (fun m => (m.1, m.2 * 0.7)))⟩ := by
            rw [heqA]
            unfold afterFuzzyStages
            rw [hks]
            dsimp only
            rw [hfb]
          exact .inr (.inr ⟨top, rest, rfl, hfge, heq⟩)
        | none =>
          have heq : laterStages o n ts = noneResult := by
            rw [heqA]
            unfold afterFuzzyStages
            rw [hks]
            dsimp only
            rw [hfb]
          rw [heq] at h
          exact absurd h (by simp [noneResult])

/-- Claim C7 (amended): whenever `matchTopic` returns an alternatives list,
it has at most 3 entries, is sorted in non-increasing (not necessarily
strictly decreasing) order of confidence, occurs only on fuzzy or keyword
results, and is drawn from ranked entries strictly after the primary one,
so when `availableTopics` has no duplicates the primary topic does not
appear among the alternatives. -/
theorem C7_alternatives (o : Str) (ts : List Str) (alts : List (Str × ℚ))
    (h : (matchTopic o ts).alternatives = some alts) :
    alts.length ≤ 3 ∧
    alts.Pairwise (fun a b => b.2 ≤ a.2) ∧
    ((matchTopic o ts).matchType = MatchType.fuzzy ∨
      (matchTopic o ts).matchType = MatchType.keyword) ∧
    (ts.Nodup → ∀ p ∈ alts, (matchTopic o ts).topic ≠ some p.1) := by
  rcases matchTopic_alt_none_or_later o ts with hn | heq
  · rw [hn] at h
    exact absurd h (by simp)
  · rw [heq] at h
    rcases laterStages_alt_cases o (normalizeForAlias o) ts alts h with
      ⟨top, rest, hfm, hge, hval⟩ | ⟨ktop, krest, hkm, hge, hval⟩ |
      ⟨top, rest, hfm, hge, hval⟩
    · -- high-confidence fuzzy
      rw [hval] at h
      simp only [MatchResult.alternatives, Option.some.injEq] at h
      subst h
      have hsubl : List.Sublist ((rest.take 3).filter
          (fun m => decide ((0.5 : ℚ) ≤ m.2))) rest :=
        (List.filter_sublist _).trans (List.take_sublist 3 rest)
      refine ⟨?_, ?_, ?_, ?_⟩
      · exact le_trans (List.length_filter_le _ _) (by simp)
      · have hp := fuzzySorted_pairwise (normalizeForAlias o) ts
        rw [hfm] at hp
        exact hp.of_cons.sublist hsubl
      · rw [heq, hval]
        exact Or.inl rfl
      · intro hnd p hp
        have hnodup := fuzzySorted_fst_nodup (normalizeForAlias o) hnd
        rw [hfm] at hnodup
        simp only [List.map_cons, List.nodup_cons] at hnodup
        have hpm : p.1 ∈ rest.map Prod.fst :=
          List.mem_map_of_mem Prod.fst (hsubl.subset hp)
        rw [heq, hval]
        simp only [MatchResult.topic, ne_eq, Option.some.injEq]
        intro hc
        exact hnodup.1 (hc ▸ hpm)
    · -- keyword
      rw [hval] at h
      simp only [MatchResult.alternatives, Option.some.injEq] at h
      subst h
      refine ⟨?_, ?_, ?_, ?_⟩
      · simp only [List.length_map]
        exact List.length_take_le 3 krest
      · have hp := keywordMatches_pairwise (extractKeywords o) ts
        rw [hkm] at hp
        have hp2 := hp.of_cons.sublist (List.take_sublist 3 krest)
        rw [List.pairwise_map]
        exact hp2.imp (fun hab => mul_le_mul_of_nonneg_right hab (by norm_num))
      · rw [heq, hval]
        exact Or.inr rfl
      · intro hnd p hp
        have hnodup := keywordMatches_fst_nodup (extractKeywords o) hnd
        rw [hkm] at hnodup
        simp only [List.map_cons, List.nodup_cons] at hnodup
        obtain ⟨m, hm, rfl⟩ := List.mem_map.mp hp
        have hpm : m.1 ∈ krest.map Prod.fst :=
          List.mem_map_of_mem Prod.fst ((List.take_sublist 3 krest).subset hm)
        rw [heq, hval]
        simp only [MatchResult.topic, ne_eq, Option.some.injEq]
        intro hc
        exact hnodup.1 (hc ▸ hpm)
    · -- low-confidence fuzzy fallback
      rw [hval] at h
      simp only [MatchResult.alternatives, Option.some.injEq] at h
      subst h
      refine ⟨?_, ?_, ?_, ?_⟩
      · simp only [List.length_map]
        exact List.length_take_le 3 rest
      · have hp := fuzzySorted_pairwise (normalizeForAlias o) ts
        rw [hfm] at hp
        have hp2 := hp.of_cons.sublist (List.take_sublist 3 rest)
        rw [List.pairwise_map]
        exact hp2.imp (fun hab => mul_le_mul_of_nonneg_right hab (by norm_num))
      · rw [heq, hval]
        exact Or.inl rfl
      · intro hnd p hp
        have hnodup := fuzzySorted_fst_nodup (normalizeForAlias o) hnd
        rw [hfm] at hnodup
        simp only [List.map_cons, List.nodup_cons] at hnodup
        obtain ⟨m, hm, rfl⟩ := List.mem_map.mp hp
        have hpm : m.1 ∈ rest.map Prod.fst :=
          List.mem_map_of_mem Prod.fst ((List.take_sublist 3 rest).subset hm)
        rw [heq, hval]
        simp only [MatchResult.topic, ne_eq, Option.some.injEq]
        intro hc
        exact hnodup.1 (hc ▸ hpm)

/-- Claim C7 counterexample: with duplicated topics, the alternatives list
of a keyword match contains two entries of equal confidence (so it is not
strictly sorted descending) and both carry the primary matched topic. -/
theorem C7_counterexample :
    (matchTopic "probability dice".data
      ["math-probability".data, "math-probability".data,
        "math-probability".data]).alternatives =
      some [("math-probability".data, (2/5 : ℚ)),
        ("math-probability".data, (2/5 : ℚ))] ∧
    (matchTopic "probability dice".data
      ["math-probability".data, "math-probability".data,
        "math-probability".data]).topic = some "math-probability".data ∧
    ¬ ([("math-probability".data, (2/5 : ℚ)),
        ("math-probability".data, (2/5 : ℚ))].Pairwise (fun a b => b.2 < a.2)) ∧
    "math-probability".data ∈
      [("math-probability".data, (2/5 : ℚ)),
        ("math-probability".data, (2/5 : ℚ))].map Prod.fst := by
  refine ⟨by with_unfolding_all rfl, by with_unfolding_all rfl, ?_, by decide⟩
  intro hp
  have h1 := (List.pairwise_cons.mp hp).1 ("math-probability".data, (2/5 : ℚ))
    (List.mem_singleton.mpr rfl)
  exact lt_irrefl _ h1

/-- Witness for C7 at objective "probability dice" with two distinct
topics. -/
theorem C7_witness :
    (matchTopic "probability dice".data
      ["math-probability".data, "x-dice-y".data]).alternatives =
      some [("math-probability".data, (2/5 : ℚ))] ∧
    [("math-probability".data, (2/5 : ℚ))].length ≤ 3 ∧
    [("math-probability".data, (2/5 : ℚ))].Pairwise (fun a b => b.2 ≤ a.2) ∧
    ((matchTopic "probability dice".data
        ["math-probability".data, "x-dice-y".data]).matchType = MatchType.fuzzy ∨
      (matchTopic "probability dice".data
        ["math-probability".data, "x-dice-y".data]).matchType = MatchType.keyword) ∧
    (∀ p ∈ [("math-probability".data, (2/5 : ℚ))],
      (matchTopic "probability dice".data
        ["math-probability".data, "x-dice-y".data]).topic ≠ some p.1) := by
  have halt : (matchTopic "probability dice".data
      ["math-probability".data, "x-dice-y".data]).alternatives =
      some [("math-probability".data, (2/5 : ℚ))] := by
    with_unfolding_all rfl
  have h := C7_alternatives "probability dice".data
    ["math-probability".data, "x-dice-y".data] _ halt
  exact ⟨halt, h.1, h.2.1, h.2.2.1, h.2.2.2 (by decide)⟩
